import Mathlib

/-!
Verification of the bundle-allocator parsing/validation/deduplication
pipeline and spreadsheet-serialization logic.

The definitions below are a shallow embedding of the TypeScript source:

* `processInput`, `validateNumber` — the `BundleAllocatorApp` component of
  `src/src/App.tsx` (second variant, lines 515–587), whose tokenizer splits
  on runs of whitespace/hyphen characters (`/[\s-]+/`).
* JavaScript string primitives (`String.prototype.trim`, `String.prototype.split`
  with the regexes `/\r?\n/` and `/[\s-]+/`, `parseFloat`) are modelled
  character-exactly, with numbers as exact rationals plus the two
  infinities (`parseFloat` never produces values whose double rounding
  matters for the claims below; `NaN` is modelled as `none`).
* `parseData` — the `BundleCategorizerApp` component (lines 1002–1030).
* The spreadsheet serialization (`exportToExcel`) of both variants: data-row
  layout, conditional styling, column sizing and totals placement.
-/

/-- The set of characters matched by the JavaScript `\s` character class and
removed by `String.prototype.trim` (WhiteSpace plus LineTerminator). -/
def jsIsWhite (c : Char) : Bool :=
  c = ' ' || c = '\t' || c = '\n' || c = '\r' ||
  c = '\u000B' || c = '\u000C' || c = '\u00A0' || c = '\u1680' ||
  ('\u2000' ≤ c && c ≤ '\u200A') ||
  c = '\u2028' || c = '\u2029' || c = '\u202F' || c = '\u205F' ||
  c = '\u3000' || c = '\uFEFF'

/-- JavaScript `String.prototype.trim` on a character list. -/
def jsTrimL (cs : List Char) : List Char :=
  ((cs.dropWhile jsIsWhite).reverse.dropWhile jsIsWhite).reverse

/-- `text.split(/\r?\n/)`: a line break is `"\r\n"` or `"\n"`; a lone
carriage return does not separate lines. -/
def splitNewlines : List Char → List (List Char)
  | [] => [[]]
  | '\r' :: '\n' :: rest => [] :: splitNewlines rest
  | '\n' :: rest => [] :: splitNewlines rest
  | c :: rest =>
      match splitNewlines rest with
      | t :: ts => (c :: t) :: ts
      | [] => [[c]]

/-- `raw.split("\n")` (the categorizer splits on the literal newline string,
so `"\r\n"` leaves a trailing `'\r'` for `trim` to remove). -/
def splitChar (sep : Char) : List Char → List (List Char)
  | [] => [[]]
  | c :: rest =>
      if c = sep then [] :: splitChar sep rest
      else
        match splitChar sep rest with
        | t :: ts => (c :: t) :: ts
        | [] => [[c]]

/-- Delimiter class of the tokenizing regex `/[\s-]+/`. -/
def isSplitDelim (c : Char) : Bool := jsIsWhite c || c = '-'

mutual

/-- `s.split(/[\s-]+/)`: split at maximal runs of whitespace/hyphen characters.
A leading (resp. trailing) delimiter run produces a leading (resp. trailing)
empty token, exactly as the JavaScript regex split does. -/
def splitDelimGo : List Char → List (List Char)
  | [] => [[]]
  | c :: rest =>
      if isSplitDelim c then [] :: splitDelimSkip rest
      else
        match splitDelimGo rest with
        | t :: ts => (c :: t) :: ts
        | [] => [[c]]

/-- State of `splitDelimGo` just after consuming one or more delimiter
characters: further delimiters extend the same run. -/
def splitDelimSkip : List Char → List (List Char)
  | [] => [[]]
  | c :: rest =>
      if isSplitDelim c then splitDelimSkip rest
      else
        match splitDelimGo rest with
        | t :: ts => (c :: t) :: ts
        | [] => [[c]]

end

/-- `s.split(/[\s-]+/)` on a character list. -/
def splitDelim (cs : List Char) : List (List Char) := splitDelimGo cs

/-- `line.replace(/\./g, " ")`: every literal period becomes a space. -/
def replaceDots (cs : List Char) : List Char :=
  cs.map (fun c => if c = '.' then ' ' else c)

/-- `allocRaw.replace(/gb$/i, "")`: drop a trailing case-insensitive
`gb` (one occurrence, anchored at the end). -/
def stripGb (cs : List Char) : List Char :=
  match cs.reverse with
  | b :: g :: rest =>
      if (b = 'b' || b = 'B') && (g = 'g' || g = 'G') then rest.reverse else cs
  | _ => cs

/-- A JavaScript number as produced by `parseFloat` when it is not `NaN`:
an exact rational, or one of the two infinities. -/
inductive JsNum where
  | fin (q : ℚ)
  | inf
  | negInf
deriving DecidableEq, Repr

/-- Negation of a JavaScript number (for the sign in `parseFloat`). -/
def JsNum.negOf : JsNum → JsNum
  | .fin q => .fin (-q)
  | .inf => .negInf
  | .negInf => .inf

/-- Multiplication of a JavaScript number by a natural constant
(the GB→MB conversion `allocationGB * 1024`, exact). -/
def JsNum.mulNat : JsNum → ℕ → JsNum
  | .fin q, n => .fin (q * n)
  | .inf, _ => .inf
  | .negInf, _ => .negInf

/-- Numeric value of a digit string (most significant digit first). -/
def digitsVal (ds : List Char) : ℕ :=
  ds.foldl (fun a c => 10 * a + (c.toNat - 48)) 0

/-- Digits of an exponent; an empty digit run contributes exponent `0`,
matching `parseFloat`, which ignores an ill-formed exponent suffix
(`"5e"` parses to `5`). -/
def expDigits (cs : List Char) : ℤ :=
  (digitsVal (cs.takeWhile Char.isDigit) : ℤ)

/-- Optionally signed exponent digits. -/
def expSigned : List Char → ℤ
  | '-' :: r => - expDigits r
  | '+' :: r => expDigits r
  | cs => expDigits cs

/-- The exponent contributed by the remainder of the input after the
mantissa: `e`/`E`, an optional sign and digits, or nothing. -/
def expPart : List Char → ℤ
  | 'e' :: r => expSigned r
  | 'E' :: r => expSigned r
  | _ => 0

/-- The longest-prefix value of an unsigned `StrDecimalLiteral`:
the literal `Infinity`, or decimal digits with an optional fraction and
exponent. Returns `none` when no prefix parses (`NaN`). -/
def parseUnsigned (cs : List Char) : Option JsNum :=
  if cs.take 8 = ['I', 'n', 'f', 'i', 'n', 'i', 't', 'y'] then some JsNum.inf
  else
    match cs.dropWhile Char.isDigit with
    | c0 :: r =>
        if c0 = '.' then
          if (cs.takeWhile Char.isDigit).isEmpty && (r.takeWhile Char.isDigit).isEmpty
          then none
          else some (JsNum.fin
            (((digitsVal (cs.takeWhile Char.isDigit) : ℚ) +
                (digitsVal (r.takeWhile Char.isDigit) : ℚ) /
                  (10 : ℚ) ^ (r.takeWhile Char.isDigit).length)
              * (10 : ℚ) ^ expPart (r.dropWhile Char.isDigit)))
        else
          if (cs.takeWhile Char.isDigit).isEmpty then none
          else some (JsNum.fin ((digitsVal (cs.takeWhile Char.isDigit) : ℚ) *
            (10 : ℚ) ^ expPart (c0 :: r)))
    | [] =>
        if (cs.takeWhile Char.isDigit).isEmpty then none
        else some (JsNum.fin ((digitsVal (cs.takeWhile Char.isDigit) : ℚ) *
          (10 : ℚ) ^ expPart []))

/-- JavaScript `parseFloat`: leading whitespace is skipped, then the longest
prefix matching an optionally signed `StrDecimalLiteral` is evaluated;
`none` models `NaN`. -/
def parseFloatL (cs : List Char) : Option JsNum :=
  match cs.dropWhile jsIsWhite with
  | [] => parseUnsigned []
  | c :: r =>
      if c = '-' then (parseUnsigned r).map JsNum.negOf
      else if c = '+' then parseUnsigned r
      else parseUnsigned (c :: r)

/-- `validateNumber` (`App.tsx` lines 19 and 515): the regex `/^0\d{9}$/`. -/
def validateNumber (num : String) : Bool :=
  match num.data with
  | c :: rest => c = '0' && rest.length = 9 && rest.all Char.isDigit
  | [] => false

/-- One parsing attempt of `processInput` on a normalized line
(`App.tsx` lines 532–551 and 555–575, identical in both passes):
replace periods by spaces, trim, split on `/[\s-]+/`; with at least two
tokens, strip a trailing `gb` from the second and `parseFloat` it; the
line contributes iff the result is not `NaN`. -/
def parseLine (line : List Char) : Option (String × JsNum) :=
  match splitDelim (jsTrimL (replaceDots line)) with
  | phoneRaw :: allocTok :: _ =>
      match parseFloatL (jsTrimL (stripGb allocTok)) with
      | some a => some (String.mk phoneRaw, a)
      | none => none
  | _ => none

/-- The normalized candidate lines of `processInput`: split on `/\r?\n/`,
trim, drop empties (`App.tsx` lines 522–525). -/
def normalizeLines (text : List Char) : List (List Char) :=
  ((splitNewlines text).map jsTrimL).filter (fun l => !l.isEmpty)

/-- One step of the first pass of `processInput` (`App.tsx` lines 532–552):
a parseable line's identifier goes into the `duplicates` set when already
seen, into the `phoneNumbers` set otherwise. Sets are modelled as
insertion-ordered duplicate-free lists. -/
def pass1Step (st : List String × List String) (line : List Char) :
    List String × List String :=
  match parseLine line with
  | some pa =>
      if pa.1 ∈ st.1 then (st.1, if pa.1 ∈ st.2 then st.2 else st.2 ++ [pa.1])
      else (st.1 ++ [pa.1], st.2)
  | none => st

/-- The `duplicates` set after the first pass of `processInput`. -/
def duplicatesOf (lines : List (List Char)) : List String :=
  (lines.foldl pass1Step ([], [])).2

/-- The record type `PhoneEntry` of the source. -/
structure PhoneEntry where
  number : String
  allocationGB : JsNum
  isValid : Bool
  isDuplicate : Bool
deriving DecidableEq, Repr

/-- Second pass of `processInput` on one line (`App.tsx` lines 555–575):
build the record, with `isValid` from `validateNumber` and `isDuplicate`
by membership in the first-pass `duplicates` set. -/
def mkEntry (dups : List String) (line : List Char) : Option PhoneEntry :=
  (parseLine line).map (fun pa =>
    { number := pa.1
      allocationGB := pa.2
      isValid := validateNumber pa.1
      isDuplicate := decide (pa.1 ∈ dups) })

/-- `processInput` (`App.tsx` lines 517–587): normalize the input into
lines, run the two-pass duplicate detection, and build the record set. -/
def processInput (text : String) : List PhoneEntry :=
  let lines := normalizeLines text.data
  lines.filterMap (mkEntry (duplicatesOf lines))

/-- The candidate lines of the categorizer's `parseData`
(`App.tsx` line 1003): split on the literal `"\n"`, trim, drop empties. -/
def categorizerLines (raw : String) : List (List Char) :=
  ((splitChar '\n' raw.data).map jsTrimL).filter (fun l => !l.isEmpty)

/-- The bucket label of one categorizer line (`App.tsx` lines 1009–1017):
second whitespace/hyphen-delimited token (or `""` when absent), every
non-digit stripped, rendered as `"<digits> GB"`, or `"Unknown"` when no
digit remains. -/
def bucketLabel (line : List Char) : String :=
  let parts := splitDelim line
  let alloc := (parts.getD 1 []).filter Char.isDigit
  if alloc.isEmpty then "Unknown" else String.mk alloc ++ " GB"

/-- Reading `allocationSummary[key]` in the source: a JavaScript object with
non-index string keys is an insertion-ordered map, modelled as an
association list; a missing key reads as the `|| 0` default. -/
def objGet (m : List (String × ℕ)) (k : String) : ℕ :=
  match m.find? (fun p => p.1 == k) with
  | some p => p.2
  | none => 0

/-- Writing `allocationSummary[key] = v`: update in place when the key
exists, append otherwise (JavaScript objects keep first-insertion order
for non-index string keys, which all labels here are). -/
def objSet (m : List (String × ℕ)) (k : String) (v : ℕ) : List (String × ℕ) :=
  if m.any (fun p => p.1 == k) then
    m.map (fun p => if p.1 == k then (p.1, v) else p)
  else m ++ [(k, v)]

/-- `parseData` of the `BundleCategorizerApp` (`App.tsx` lines 1002–1030):
tally the bucket label of every normalized line; `Object.entries` of the
accumulator is the association list itself. `updSummary` is the loop body
`allocationSummary[allocation] = (allocationSummary[allocation] || 0) + 1`. -/
def updSummary (m : List (String × ℕ)) (line : List Char) : List (String × ℕ) :=
  objSet m (bucketLabel line) (objGet m (bucketLabel line) + 1)

def parseData (raw : String) : List (String × ℕ) :=
  (categorizerLines raw).foldl updSummary []

/-- Insertion into a first-seen-ordered key list (used to state the
iteration order of `parseData`). -/
def seenInsert (ks : List String) (k : String) : List String :=
  if k ∈ ks then ks else ks ++ [k]

/-- The distinct labels of a label sequence, in first-seen order. -/
def firstSeenKeys (ls : List String) : List String :=
  ls.foldl seenInsert []

/-- A worksheet cell value: a string or a number (formula cells of the
totals block are modelled separately in `Totals`). -/
inductive CellVal where
  | s (v : String)
  | n (v : JsNum)
deriving DecidableEq, Repr

/-- The fixed header row of the export (`App.tsx` lines 137 and 648–654,
`part_000` lines 82–88; identical in all variants). -/
def headerRow : List CellVal :=
  [CellVal.s "Beneficiary Msisdn", CellVal.s "Beneficiary Name",
   CellVal.s "Voice(Minutes)", CellVal.s "Data (MB) (1024MB = 1GB)",
   CellVal.s "Sms(Unit)"]

/-- The data row of one record (`App.tsx` lines 142–148 and 657–659,
`part_000` lines 90–92; identical in all variants):
`[number, "", 0, allocationGB * 1024, 0]`. -/
def dataRow (e : PhoneEntry) : List CellVal :=
  [CellVal.s e.number, CellVal.s "", CellVal.n (JsNum.fin 0),
   CellVal.n (e.allocationGB.mulNat 1024), CellVal.n (JsNum.fin 0)]

/-- The rows of the exported worksheet: header then one data row per
record, in record order. -/
def worksheetRows (es : List PhoneEntry) : List (List CellVal) :=
  headerRow :: es.map dataRow

/-- Decimal rendering of a rational with a terminating decimal expansion,
as `Number.prototype.toString` renders every value `parseFloat` can
produce at the magnitudes this application handles (no exponent form,
shortest digit run). Rationals with non-terminating expansions (which no
`JsNum` built by this embedding carries) are cut off after 17 digits. -/
def ratScaleK (q : ℚ) : ℕ :=
  ((List.range 18).find? (fun k => (q * (10 : ℚ) ^ k).den = 1)).getD 17

/-- Zero-pad a digit string on the left to the given width. -/
def padLeftZeros (s : String) (n : ℕ) : String :=
  String.mk (List.replicate (n - s.length) '0') ++ s

/-- Decimal string of a rational (see `ratScaleK`). -/
def ratDecimalString (q : ℚ) : String :=
  let sign := if q < 0 then "-" else ""
  let a := |q|
  let k := ratScaleK a
  let m := (a * (10 : ℚ) ^ k).num.toNat
  if k = 0 then sign ++ toString m
  else sign ++ toString (m / 10 ^ k) ++ "." ++ padLeftZeros (toString (m % 10 ^ k)) k

/-- `Number.prototype.toString` on a `JsNum`. -/
def jsNumToString : JsNum → String
  | .fin q => ratDecimalString q
  | .inf => "Infinity"
  | .negInf => "-Infinity"

/-- The text the width pass reads from a cell
(`cell.value ? cell.value.toString() : ""`, `App.tsx` line 681): falsy
values — the empty string and the number `0` — read as `""`. -/
def cellText : CellVal → String
  | .s v => v
  | .n v => if v = JsNum.fin 0 then "" else jsNumToString v

/-- Length of the text the width pass reads from a cell. -/
def cellTextLen (c : CellVal) : ℕ := (cellText c).length

/-- One column of the auto-sizing pass of the second export variant
(`App.tsx` lines 677–686, `part_000` lines 99–110): start `maxLength` at
`10`, fold `max` over every cell of the column (including empty ones,
which read as `""`), then add `2`. -/
def colWidthAuto (rows : List (List CellVal)) (i : ℕ) : ℕ :=
  (rows.foldl (fun m row => max m (cellTextLen (row.getD i (CellVal.s "")))) 10) + 2

/-- The five auto-sized column widths of the second export variant. -/
def autoWidths (rows : List (List CellVal)) : List ℕ :=
  (List.range 5).map (colWidthAuto rows)

/-- The width formula as the specification states it: for each column,
`max(10, max over all non-empty cell text lengths) + 2`. Empty cells read
as `""` of length `0`, which never exceeds `10`, so folding over all cells
gives the same value. -/
def specColWidth (rows : List (List CellVal)) (i : ℕ) : ℕ :=
  max 10 ((rows.map (fun row => cellTextLen (row.getD i (CellVal.s "")))).foldl max 0) + 2

/-- Fill colour, font colour and boldness applied to a cell. -/
structure CellFace where
  fillColor : Option String
  fontColor : Option String
  bold : Bool
deriving DecidableEq, Repr

/-- A cell with no conditional styling applied. -/
def plainFace : CellFace :=
  { fillColor := none, fontColor := none, bold := false }

/-- Conditional styling of the first export variant (`App.tsx` lines
160–171), applied to every cell of the record's row — the identifier cell
included: an `if`/`else if`, so an invalid record gets the red fill and an
invalid duplicate is never styled as a duplicate. -/
def rowFaceV1 (e : PhoneEntry) : CellFace :=
  if e.isValid = false then
    { fillColor := some "FFFF0000", fontColor := some "FF000000", bold := true }
  else if e.isDuplicate = true then
    { fillColor := some "FFFFFF00", fontColor := some "FF000000", bold := true }
  else plainFace

/-- Conditional styling of the second export variant (`App.tsx` lines
661–673), applied to the identifier cell only: two independent `if`s — an
invalid record gets a bold red font (no fill), a duplicate gets a yellow
fill whether or not it is valid. -/
def cell1FaceV2 (e : PhoneEntry) : CellFace :=
  let afterInvalid :=
    if e.isValid = false then
      { plainFace with fontColor := some "FFFF0000", bold := true }
    else plainFace
  if e.isDuplicate = true then
    { afterInvalid with fillColor := some "FFFFFF00" }
  else afterInvalid

/-- The totals block (`App.tsx` lines 183–193 and 688–695): placed five
rows below the last data row, the `SUM` of `D2:D<lastRow>` in column F and
`F<row>/1024` in column G, both stored as live formula text, both bold. -/
structure Totals where
  rowIndex : ℕ
  sumFormula : String
  gbFormula : String
  sumBold : Bool
  gbBold : Bool
deriving DecidableEq, Repr

/-- The totals block for a record set: after the header and `N` data rows
`worksheet.lastRow.number` is `N + 1`. -/
def totalsOf (es : List PhoneEntry) : Totals :=
  { rowIndex := (es.length + 1) + 5
    sumFormula := "SUM(D2:D" ++ toString (es.length + 1) ++ ")"
    gbFormula := "F" ++ toString ((es.length + 1) + 5) ++ "/1024"
    sumBold := true
    gbBold := true }

/-- The worksheet produced by the first export variant (`App.tsx` lines
122–231): rows, per-row styling, the five fixed column widths of lines
175–181, and the totals block. -/
structure ExportedSheetV1 where
  rows : List (List CellVal)
  rowFaces : List CellFace
  colWidths : List ℕ
  totals : Totals
deriving DecidableEq, Repr

/-- The worksheet produced by the second export variant (`App.tsx` lines
635–732): rows, identifier-cell styling, auto-sized column widths, and
the totals block. -/
structure ExportedSheetV2 where
  rows : List (List CellVal)
  cell1Faces : List CellFace
  colWidths : List ℕ
  totals : Totals
deriving DecidableEq, Repr

/-- Worksheet content assembled by the first export variant. -/
def buildV1 (es : List PhoneEntry) : ExportedSheetV1 :=
  { rows := worksheetRows es
    rowFaces := es.map rowFaceV1
    colWidths := [15, 20, 15, 15, 12]
    totals := totalsOf es }

/-- Worksheet content assembled by the second export variant (widths are
computed before the totals cells exist, over the header and data rows). -/
def buildV2 (es : List PhoneEntry) : ExportedSheetV2 :=
  { rows := worksheetRows es
    cell1Faces := es.map cell1FaceV2
    colWidths := autoWidths (worksheetRows es)
    totals := totalsOf es }

/-- `exportToExcel` of the first variant as a function of the record set:
an empty record set is rejected before any worksheet is assembled. -/
def exportToExcelV1 (es : List PhoneEntry) : Option ExportedSheetV1 :=
  if es.isEmpty then none else some (buildV1 es)

/-- `exportToExcel` of the second variant as a function of the record set. -/
def exportToExcelV2 (es : List PhoneEntry) : Option ExportedSheetV2 :=
  if es.isEmpty then none else some (buildV2 es)

/-- The state `exportToExcel` reads and writes: the input buffer and the
record set (`inputText`/`entries` in the source). -/
structure AppState where
  inputText : String
  entries : List PhoneEntry
deriving DecidableEq, Repr

/-- What one call of `exportToExcel` reports to the caller. -/
inductive ExportOutcome where
  | rejectedEmpty
  | exportError
  | exported (sheet : ExportedSheetV2)
deriving DecidableEq, Repr

/-- The control flow of `exportToExcel` (`App.tsx` lines 635–732): an empty
record set is rejected up front with the state untouched; a failure while
assembling the binary (abstracted by `serializeOk = false`) is caught with
the state untouched; only the success path clears `inputText` and
`entries` (lines 722–724). -/
def exportToExcelRun (st : AppState) (serializeOk : Bool) :
    AppState × ExportOutcome :=
  if st.entries.isEmpty then (st, ExportOutcome.rejectedEmpty)
  else if serializeOk then
    ({ inputText := "", entries := [] }, ExportOutcome.exported (buildV2 st.entries))
  else (st, ExportOutcome.exportError)

/-- The parseable-line count with a given identifier (the occurrence count
that duplicate detection is about). -/
def cntPhone (p : String) (lines : List (List Char)) : ℕ :=
  lines.countP (fun l =>
    match parseLine l with
    | some pa => pa.1 == p
    | none => false)

/-- A line that the claimed record-set invariant counts: at least two
tokens, and a second token that parses to a finite number. -/
def lineParsesFinite (line : List Char) : Bool :=
  match parseLine line with
  | some (_, JsNum.fin _) => true
  | _ => false

/-- Claim C2 as stated: one record per line whose second token parses to a
finite number, and every allocation a finite non-negative number. -/
def finiteRecordClaim (text : String) : Prop :=
  (processInput text).length = (normalizeLines text.data).countP lineParsesFinite ∧
  ∀ e ∈ processInput text, ∃ q : ℚ, e.allocationGB = JsNum.fin q ∧ 0 ≤ q

/-- Claim C6 as stated, at one record: in both export variants the
identifier cell of an invalid record gets the red fill and bold font, a
valid duplicate gets the yellow fill and bold font, and an invalid record
is never styled with the duplicate yellow. -/
def styleClaimAt (e : PhoneEntry) : Prop :=
  (e.isValid = false →
    (rowFaceV1 e).fillColor = some "FFFF0000" ∧ (rowFaceV1 e).bold = true ∧
    (cell1FaceV2 e).fillColor = some "FFFF0000" ∧ (cell1FaceV2 e).bold = true) ∧
  (e.isValid = true → e.isDuplicate = true →
    (rowFaceV1 e).fillColor = some "FFFFFF00" ∧ (rowFaceV1 e).bold = true ∧
    (cell1FaceV2 e).fillColor = some "FFFFFF00" ∧ (cell1FaceV2 e).bold = true) ∧
  (e.isValid = false →
    (rowFaceV1 e).fillColor ≠ some "FFFFFF00" ∧
    (cell1FaceV2 e).fillColor ≠ some "FFFFFF00")

/-- Claim C8 as stated, at one record set: every column of every exported
worksheet is auto-sized by the `max(10, longest cell text) + 2` formula. -/
def widthClaimAt (es : List PhoneEntry) : Prop :=
  ∀ i, i < 5 →
    (buildV1 es).colWidths.getD i 0 = specColWidth (buildV1 es).rows i ∧
    (buildV2 es).colWidths.getD i 0 = specColWidth (buildV2 es).rows i

/-- Input of the duplicate-detection example of the specification. -/
def exDup : String := "0201234567 10GB\n0554739033 20GB\n0201234567 5GB"

/-- Input whose allocation token parses to `Infinity` (not `NaN`, so the
line is kept, with a non-finite allocation). -/
def exInf : String := "0241234567 Infinity"

/-- A two-line input with one finite and one infinite allocation. -/
def exMix : String := "0241234567 2.5GB\n0111111111 Infinity"

/-- A categorizer input with a repeated bucket and a line with no digits
in its second token. -/
def exCat : String := "0241111111 20GB\n0242222222 50GB\n0243333333 20GB\nnodigits"

/-- An invalid duplicate record (the styling counterexample). -/
def eInvDup : PhoneEntry :=
  { number := "123", allocationGB := JsNum.fin 1, isValid := false, isDuplicate := true }

/-- A one-record set (the width counterexample). -/
def esOne : List PhoneEntry :=
  [{ number := "0241234567", allocationGB := JsNum.fin 1, isValid := true, isDuplicate := false }]

/-- A three-record set (the totals-placement instance of the claim). -/
def esThree : List PhoneEntry :=
  [{ number := "0201234567", allocationGB := JsNum.fin 10, isValid := true, isDuplicate := false },
   { number := "0554739033", allocationGB := JsNum.fin 20, isValid := true, isDuplicate := false },
   { number := "0556789012", allocationGB := JsNum.fin 5, isValid := true, isDuplicate := false }]

/-- An application state with an empty record set. -/
def stEmpty : AppState := { inputText := "abc", entries := [] }

/-- An application state with one record. -/
def stOne : AppState := { inputText := "0241234567 1GB", entries := esOne }


example : validateNumber "0554739033" = true := by decide
example : validateNumber "554739033" = false := by decide
example : validateNumber "05547390330" = false := by decide
example : (parseFloatL ("Infinity".data)).isSome = true := by decide
example : parseFloatL ("".data) = none := by decide
example : splitDelim ("a--b ".data) = [['a'], ['b'], []] := by decide
example :
    (processInput "0201234567 10GB\n0554739033 20GB\n0201234567 5GB").map
      (fun e => (e.number, e.isValid, e.isDuplicate)) =
      [("0201234567", true, true), ("0554739033", true, false),
       ("0201234567", true, true)] := by decide
example :
    (processInput "0241234567 Infinity").map PhoneEntry.allocationGB =
      [JsNum.inf] := by decide


/-- C3: `validateNumber s` is true exactly when `s` is ten decimal digits
starting with `'0'`, and the three example identifiers classify as the
specification states. -/
theorem validateNumber_characterization :
    (∀ s : String, validateNumber s = true ↔
      s.data.length = 10 ∧ (∀ c ∈ s.data, c.isDigit = true) ∧
        s.data.head? = some '0') ∧
    validateNumber "0554739033" = true ∧
    validateNumber "554739033" = false ∧
    validateNumber "05547390330" = false := by
  refine ⟨?_, by decide, by decide, by decide⟩
  intro s
  unfold validateNumber
  cases hd : s.data with
  | nil => simp
  | cons c rest =>
    simp only [Bool.and_eq_true, decide_eq_true_eq, List.all_eq_true,
      List.length_cons, List.head?_cons, Option.some.injEq, List.mem_cons]
    constructor
    · rintro ⟨⟨hc, hlen⟩, hall⟩
      subst hc
      refine ⟨by omega, ?_, rfl⟩
      rintro x (rfl | hx)
      · decide
      · exact hall x hx
    · rintro ⟨hlen, hall, hc⟩
      subst hc
      exact ⟨⟨rfl, by omega⟩, fun x hx => hall x (Or.inr hx)⟩

/-- Every record of `processInput` carries the validity flag of its own
identifier and the duplicate flag of the first-pass `duplicates` set, and
originates from a normalized line that parses to exactly its identifier
and allocation. -/
theorem mem_processInput_fields (text : String) (e : PhoneEntry)
    (he : e ∈ processInput text) :
    e.isValid = validateNumber e.number ∧
    e.isDuplicate = decide (e.number ∈ duplicatesOf (normalizeLines text.data)) ∧
    ∃ line ∈ normalizeLines text.data,
      parseLine line = some (e.number, e.allocationGB) := by
  simp only [processInput, List.mem_filterMap] at he
  obtain ⟨l, hl, hml⟩ := he
  simp only [mkEntry, Option.map_eq_some'] at hml
  obtain ⟨pa, hpa, hmk⟩ := hml
  subst hmk
  exact ⟨rfl, rfl, l, hl, hpa⟩

/-- The records a line list contributes, counted by identifier, are the
lines that parse to that identifier. -/
theorem countP_filterMap_mkEntry (d : List String) (lines : List (List Char))
    (p : String) :
    (lines.filterMap (mkEntry d)).countP (fun r => r.number == p) =
      cntPhone p lines := by
  induction lines with
  | nil => rfl
  | cons l ls ih =>
    rw [List.filterMap_cons]
    cases hl : parseLine l with
    | none =>
      have ih2 := ih
      simp only [cntPhone] at ih2 ⊢
      simp [mkEntry, hl, List.countP_cons, ih2]
    | some pa =>
      have ih2 := ih
      simp only [cntPhone] at ih2 ⊢
      simp [mkEntry, hl, List.countP_cons, ih2]

/-- Identifier-count spelling of `countP_filterMap_mkEntry` for
`processInput` itself. -/
theorem countP_processInput (text : String) (p : String) :
    (processInput text).countP (fun r => r.number == p) =
      cntPhone p (normalizeLines text.data) := by
  simp only [processInput]
  exact countP_filterMap_mkEntry _ _ p

/-- Invariant of the first pass of duplicate detection: starting from the
sets `seen` and `dups`, after folding the remaining lines an identifier is
in the seen set iff it was there or occurs at least once, and in the
duplicates set iff it was there, was already seen and occurs, or occurs at
least twice. -/
theorem pass1_fold_mem (lines : List (List Char)) :
    ∀ seen dups : List String, ∀ p : String,
      (p ∈ (lines.foldl pass1Step (seen, dups)).1 ↔
        p ∈ seen ∨ 1 ≤ cntPhone p lines) ∧
      (p ∈ (lines.foldl pass1Step (seen, dups)).2 ↔
        p ∈ dups ∨ (p ∈ seen ∧ 1 ≤ cntPhone p lines) ∨ 2 ≤ cntPhone p lines) := by
  induction lines with
  | nil =>
    intro seen dups p
    simp [cntPhone]
  | cons l ls ih =>
    intro seen dups p
    rw [List.foldl_cons]
    cases hl : parseLine l with
    | none =>
      have hstep : pass1Step (seen, dups) l = (seen, dups) := by
        simp [pass1Step, hl]
      have hcnt : cntPhone p (l :: ls) = cntPhone p ls := by
        simp [cntPhone, List.countP_cons, hl]
      rw [hstep, hcnt]
      exact ih seen dups p
    | some pa =>
      by_cases hpq : pa.1 = p
      · subst hpq
        have hcnt : cntPhone pa.1 (l :: ls) = cntPhone pa.1 ls + 1 := by
          simp [cntPhone, List.countP_cons, hl]
        rw [hcnt]
        have h11 : 1 ≤ cntPhone pa.1 ls + 1 := by omega
        have h21 : 2 ≤ cntPhone pa.1 ls + 1 ↔ 1 ≤ cntPhone pa.1 ls := by omega
        have himp : 2 ≤ cntPhone pa.1 ls → 1 ≤ cntPhone pa.1 ls := by omega
        by_cases hq : pa.1 ∈ seen
        · have hstep : pass1Step (seen, dups) l =
              (seen, if pa.1 ∈ dups then dups else dups ++ [pa.1]) := by
            simp [pass1Step, hl, hq]
          rw [hstep]
          obtain ⟨h1, h2⟩ := ih seen (if pa.1 ∈ dups then dups else dups ++ [pa.1]) pa.1
          have hmem2 : pa.1 ∈ (if pa.1 ∈ dups then dups else dups ++ [pa.1]) := by
            by_cases hdp : pa.1 ∈ dups <;> simp [hdp]
          rw [h1, h2]
          constructor
          · simp [hq, h11]
          · simp only [hmem2, true_or, h21, true_iff]
            exact Or.inr (Or.inl ⟨hq, h11⟩)
        · have hstep : pass1Step (seen, dups) l = (seen ++ [pa.1], dups) := by
            simp [pass1Step, hl, hq]
          rw [hstep]
          obtain ⟨h1, h2⟩ := ih (seen ++ [pa.1]) dups pa.1
          rw [h1, h2]
          simp only [List.mem_append, List.mem_singleton, h21, hq]
          constructor
          · simp [h11]
          · constructor
            · rintro (h | ⟨hs, hc⟩ | h)
              · exact Or.inl h
              · exact Or.inr (Or.inr hc)
              · exact Or.inr (Or.inr (himp h))
            · rintro (h | ⟨hs, hc⟩ | h)
              · exact Or.inl h
              · exact hs.elim
              · exact Or.inr (Or.inl ⟨Or.inr trivial, h⟩)
      · have hcnt : cntPhone p (l :: ls) = cntPhone p ls := by
          simp [cntPhone, List.countP_cons, hl, hpq]
        rw [hcnt]
        by_cases hq : pa.1 ∈ seen
        · have hstep : pass1Step (seen, dups) l =
              (seen, if pa.1 ∈ dups then dups else dups ++ [pa.1]) := by
            simp [pass1Step, hl, hq]
          rw [hstep]
          obtain ⟨h1, h2⟩ := ih seen (if pa.1 ∈ dups then dups else dups ++ [pa.1]) p
          have hmem2 : (p ∈ if pa.1 ∈ dups then dups else dups ++ [pa.1]) ↔ p ∈ dups := by
            by_cases hdp : pa.1 ∈ dups
            · simp [hdp]
            · simp [hdp, Ne.symm hpq]
          rw [h1, h2, hmem2]
          exact ⟨Iff.rfl, Iff.rfl⟩
        · have hstep : pass1Step (seen, dups) l = (seen ++ [pa.1], dups) := by
            simp [pass1Step, hl, hq]
          rw [hstep]
          obtain ⟨h1, h2⟩ := ih (seen ++ [pa.1]) dups p
          have hmem1 : (p ∈ seen ++ [pa.1]) ↔ p ∈ seen := by
            simp [Ne.symm hpq]
          rw [h1, h2, hmem1]
          exact ⟨Iff.rfl, Iff.rfl⟩

/-- Membership in the first-pass `duplicates` set is exactly "the
identifier heads at least two parseable lines". -/
theorem mem_duplicatesOf (lines : List (List Char)) (p : String) :
    p ∈ duplicatesOf lines ↔ 2 ≤ cntPhone p lines := by
  have h := (pass1_fold_mem lines [] [] p).2
  simpa [duplicatesOf] using h

/-- C1: a record of `processInput` is flagged `isDuplicate` exactly when
its identifier appears on at least two of the allocation-parseable lines —
equivalently, in at least two records — so all occurrences of a repeated
identifier are flagged, the first included, and an identifier occurring
once is never flagged. -/
theorem processInput_isDuplicate_iff_repeated (text : String) (i : ℕ)
    (hi : i < (processInput text).length) :
    ((processInput text)[i]).isDuplicate = true ↔
      2 ≤ (processInput text).countP
        (fun r => r.number == ((processInput text)[i]).number) := by
  obtain ⟨-, hdup, -⟩ :=
    mem_processInput_fields text ((processInput text)[i]) (List.getElem_mem hi)
  rw [hdup, decide_eq_true_eq, countP_processInput, mem_duplicatesOf]

/-- C1 witness: on the specification's three-line example the first
record (identifier `0201234567`) is flagged and indeed occurs twice. -/
theorem processInput_isDuplicate_iff_repeated_witness :
    0 < (processInput exDup).length ∧
    (((processInput exDup).get ⟨0, by decide⟩).isDuplicate = true ↔
      2 ≤ (processInput exDup).countP
        (fun r => r.number == ((processInput exDup).get ⟨0, by decide⟩).number)) :=
  ⟨by decide, processInput_isDuplicate_iff_repeated exDup 0 (by decide)⟩

/-- C10: within one run of `processInput`, two records with the same
identifier have the same validity flag and the same duplicate flag. -/
theorem processInput_flags_functional (text : String) (i j : ℕ)
    (hi : i < (processInput text).length) (hj : j < (processInput text).length)
    (hn : ((processInput text)[i]).number = ((processInput text)[j]).number) :
    ((processInput text)[i]).isValid = ((processInput text)[j]).isValid ∧
    ((processInput text)[i]).isDuplicate = ((processInput text)[j]).isDuplicate := by
  obtain ⟨hv1, hd1, -⟩ :=
    mem_processInput_fields text ((processInput text)[i]) (List.getElem_mem hi)
  obtain ⟨hv2, hd2, -⟩ :=
    mem_processInput_fields text ((processInput text)[j]) (List.getElem_mem hj)
  rw [hv1, hv2, hd1, hd2, hn]
  exact ⟨rfl, rfl⟩

/-- C10 witness: records 0 and 2 of the example share the identifier
`0201234567` and agree on both flags. -/
theorem processInput_flags_functional_witness :
    0 < (processInput exDup).length ∧ 2 < (processInput exDup).length ∧
    ((processInput exDup).get ⟨0, by decide⟩).number =
      ((processInput exDup).get ⟨2, by decide⟩).number ∧
    (((processInput exDup).get ⟨0, by decide⟩).isValid =
      ((processInput exDup).get ⟨2, by decide⟩).isValid ∧
    ((processInput exDup).get ⟨0, by decide⟩).isDuplicate =
      ((processInput exDup).get ⟨2, by decide⟩).isDuplicate) :=
  ⟨by decide, by decide, by decide,
    processInput_flags_functional exDup 0 2 (by decide) (by decide) (by decide)⟩

/-- No token produced by the whitespace/hyphen split contains a delimiter
character. -/
theorem splitDelim_tokens_no_delim (cs : List Char) :
    (∀ t ∈ splitDelimGo cs, ∀ c ∈ t, isSplitDelim c = false) ∧
    (∀ t ∈ splitDelimSkip cs, ∀ c ∈ t, isSplitDelim c = false) := by
  induction cs with
  | nil =>
    constructor
    · intro t ht x hx
      simp [splitDelimGo] at ht
      subst ht
      simp at hx
    · intro t ht x hx
      simp [splitDelimSkip] at ht
      subst ht
      simp at hx
  | cons c rest ih =>
    obtain ⟨ihGo, ihSkip⟩ := ih
    have hside : ∀ t, t ∈ (match splitDelimGo rest with
        | t0 :: ts => (c :: t0) :: ts
        | [] => [[c]]) → isSplitDelim c = false → ∀ x ∈ t, isSplitDelim x = false := by
      intro t ht hc x hx
      cases hgo : splitDelimGo rest with
      | nil =>
        rw [hgo] at ht
        simp at ht
        subst ht
        simp at hx
        subst hx
        exact hc
      | cons t0 ts =>
        rw [hgo] at ht
        simp at ht
        rcases ht with rfl | ht
        · simp at hx
          rcases hx with rfl | hx
          · exact hc
          · exact ihGo t0 (by rw [hgo]; exact List.mem_cons_self t0 ts) x hx
        · exact ihGo t (by rw [hgo]; exact List.mem_cons_of_mem t0 ht) x hx
    constructor
    · intro t ht x hx
      rw [splitDelimGo] at ht
      cases hc : isSplitDelim c with
      | true =>
        rw [hc] at ht
        simp at ht
        rcases ht with rfl | ht
        · simp at hx
        · exact ihSkip t ht x hx
      | false =>
        rw [hc] at ht
        simp only [Bool.false_eq_true, if_false] at ht
        exact hside t ht hc x hx
    · intro t ht x hx
      rw [splitDelimSkip] at ht
      cases hc : isSplitDelim c with
      | true =>
        rw [hc] at ht
        simp at ht
        exact ihSkip t ht x hx
      | false =>
        rw [hc] at ht
        simp only [Bool.false_eq_true, if_false] at ht
        exact hside t ht hc x hx

/-- `stripGb` only removes characters. -/
theorem mem_stripGb {c : Char} {t : List Char} (hx : c ∈ stripGb t) : c ∈ t := by
  unfold stripGb at hx
  split at hx
  next b g rest h =>
    split_ifs at hx
    · rw [List.mem_reverse] at hx
      have hrev : c ∈ t.reverse := by
        rw [h]
        exact List.mem_cons_of_mem b (List.mem_cons_of_mem g hx)
      rwa [List.mem_reverse] at hrev
    · exact hx
  next h => exact hx

/-- `trim` only removes characters. -/
theorem mem_jsTrimL {c : Char} {t : List Char} (hx : c ∈ jsTrimL t) : c ∈ t := by
  unfold jsTrimL at hx
  rw [List.mem_reverse] at hx
  have h1 := (List.dropWhile_sublist (l := (t.dropWhile jsIsWhite).reverse)
    (p := jsIsWhite)).subset hx
  rw [List.mem_reverse] at h1
  exact (List.dropWhile_sublist (l := t) (p := jsIsWhite)).subset h1

/-- The unsigned parser only returns `Infinity` or a non-negative finite
value. -/
theorem parseUnsigned_nonneg (cs : List Char) (v : JsNum)
    (hv : parseUnsigned cs = some v) :
    v = JsNum.inf ∨ ∃ q : ℚ, v = JsNum.fin q ∧ 0 ≤ q := by
  unfold parseUnsigned at hv
  by_cases hinf : cs.take 8 = ['I', 'n', 'f', 'i', 'n', 'i', 't', 'y']
  · rw [if_pos hinf] at hv
    exact Or.inl (Option.some.inj hv).symm
  · rw [if_neg hinf] at hv
    split at hv
    next c0 r heq =>
      by_cases hdot : c0 = '.'
      · rw [if_pos hdot] at hv
        by_cases hd :
            ((cs.takeWhile Char.isDigit).isEmpty && (r.takeWhile Char.isDigit).isEmpty) = true
        · rw [if_pos hd] at hv
          exact absurd hv (by simp)
        · rw [if_neg hd] at hv
          refine Or.inr ⟨_, (Option.some.inj hv).symm, by positivity⟩
      · rw [if_neg hdot] at hv
        by_cases hd : (cs.takeWhile Char.isDigit).isEmpty = true
        · rw [if_pos hd] at hv
          exact absurd hv (by simp)
        · rw [if_neg hd] at hv
          refine Or.inr ⟨_, (Option.some.inj hv).symm, by positivity⟩
    next heq =>
      by_cases hd : (cs.takeWhile Char.isDigit).isEmpty = true
      · rw [if_pos hd] at hv
        exact absurd hv (by simp)
      · rw [if_neg hd] at hv
        refine Or.inr ⟨_, (Option.some.inj hv).symm, by positivity⟩

/-- `parseFloat` on a string without a minus sign only returns `Infinity`
or a non-negative finite value. -/
theorem parseFloatL_nonneg (cs : List Char) (hno : '-' ∉ cs) (v : JsNum)
    (hv : parseFloatL cs = some v) :
    v = JsNum.inf ∨ ∃ q : ℚ, v = JsNum.fin q ∧ 0 ≤ q := by
  unfold parseFloatL at hv
  cases hrest : cs.dropWhile jsIsWhite with
  | nil =>
    rw [hrest] at hv
    exact parseUnsigned_nonneg _ _ hv
  | cons c r =>
    rw [hrest] at hv
    simp only at hv
    have hcin : c ∈ cs := by
      have : c ∈ cs.dropWhile jsIsWhite := by
        rw [hrest]; exact List.mem_cons_self c r
      exact (List.dropWhile_sublist (l := cs) (p := jsIsWhite)).subset this
    have hcnot : ¬ c = '-' := fun h => hno (h ▸ hcin)
    rw [if_neg hcnot] at hv
    split_ifs at hv with hplus
    · exact parseUnsigned_nonneg _ _ hv
    · exact parseUnsigned_nonneg _ _ hv

/-- The allocation of any parsed line is `Infinity` or a non-negative
finite value: the allocation token contains no minus sign, because the
hyphen is a delimiter of the tokenizer. -/
theorem parseLine_alloc_nonneg {line : List Char} {pa : String × JsNum}
    (hp : parseLine line = some pa) :
    pa.2 = JsNum.inf ∨ ∃ q : ℚ, pa.2 = JsNum.fin q ∧ 0 ≤ q := by
  unfold parseLine at hp
  cases hsplit : splitDelim (jsTrimL (replaceDots line)) with
  | nil => rw [hsplit] at hp; exact absurd hp (by simp)
  | cons phoneRaw rest =>
    cases rest with
    | nil => rw [hsplit] at hp; exact absurd hp (by simp)
    | cons allocTok rest2 =>
      rw [hsplit] at hp
      simp only at hp
      cases hpf : parseFloatL (jsTrimL (stripGb allocTok)) with
      | none => rw [hpf] at hp; exact absurd hp (by simp)
      | some a =>
        rw [hpf] at hp
        simp only [Option.some.injEq] at hp
        have hno : '-' ∉ jsTrimL (stripGb allocTok) := by
          intro hmem
          have h1 : '-' ∈ allocTok := mem_stripGb (mem_jsTrimL hmem)
          have h2 : isSplitDelim '-' = false :=
            (splitDelim_tokens_no_delim (jsTrimL (replaceDots line))).1 allocTok
              (by rw [show splitDelimGo (jsTrimL (replaceDots line)) =
                    splitDelim (jsTrimL (replaceDots line)) from rfl, hsplit]
                  exact List.mem_cons_of_mem phoneRaw (List.mem_cons_self allocTok rest2))
              '-' h1
          exact absurd h2 (by decide)
        have := parseFloatL_nonneg _ hno a hpf
        rw [← hp]
        simpa using this

/-- The record set is one record per line whose second token parses to a
number that is not `NaN`. -/
theorem length_filterMap_mkEntry (d : List String) (lines : List (List Char)) :
    (lines.filterMap (mkEntry d)).length =
      lines.countP (fun l => (parseLine l).isSome) := by
  induction lines with
  | nil => rfl
  | cons l ls ih =>
    rw [List.filterMap_cons]
    cases hl : parseLine l with
    | none => simp [mkEntry, hl, List.countP_cons, ih]
    | some pa => simp [mkEntry, hl, List.countP_cons, ih]

/-- C2 counterexample: on the input `"0241234567 Infinity"` the single
line's token parses to `Infinity` — not `NaN`, so `processInput` keeps the
record — although no line parses to a finite number, falsifying the
claimed invariant. -/
theorem finiteRecordClaim_counterexample : ¬ finiteRecordClaim exInf := by
  intro h
  exact absurd h.1 (by decide)

/-- C2 (amended): the record set has exactly one record per trimmed
non-empty line whose tokenization parses — at least two tokens and a
second token that `parseFloat` does not reject — other lines are silently
dropped; each record's allocation is the value parsed from its own line,
and it is non-negative when finite, but it can also be `Infinity` (the
claim's "finite" does not hold: `parseFloat` accepts `Infinity`, which is
not `NaN`). -/
theorem processInput_record_count_and_alloc (text : String) :
    (processInput text).length =
      (normalizeLines text.data).countP (fun l => (parseLine l).isSome) ∧
    ∀ e ∈ processInput text,
      (∃ line ∈ normalizeLines text.data,
        parseLine line = some (e.number, e.allocationGB)) ∧
      (e.allocationGB = JsNum.inf ∨
        ∃ q : ℚ, e.allocationGB = JsNum.fin q ∧ 0 ≤ q) := by
  constructor
  · simp only [processInput]
    exact length_filterMap_mkEntry _ _
  · intro e he
    obtain ⟨-, -, line, hline, hparse⟩ := mem_processInput_fields text e he
    refine ⟨⟨line, hline, hparse⟩, ?_⟩
    have h := parseLine_alloc_nonneg hparse
    simpa using h

/-- C2 witness: on a finite line plus an `Infinity` line, both records are
kept and the first record's allocation admits the non-negative-or-infinite
description. -/
theorem processInput_record_count_and_alloc_witness :
    (processInput exMix).length =
      (normalizeLines exMix.data).countP (fun l => (parseLine l).isSome) ∧
    ((∃ line ∈ normalizeLines exMix.data,
        parseLine line = some (((processInput exMix).get ⟨0, by decide⟩).number,
          ((processInput exMix).get ⟨0, by decide⟩).allocationGB)) ∧
      (((processInput exMix).get ⟨0, by decide⟩).allocationGB = JsNum.inf ∨
        ∃ q : ℚ,
          ((processInput exMix).get ⟨0, by decide⟩).allocationGB = JsNum.fin q ∧
          0 ≤ q)) :=
  ⟨(processInput_record_count_and_alloc exMix).1,
    (processInput_record_count_and_alloc exMix).2 _ (List.getElem_mem (by decide))⟩

/-- C4: the exported worksheet of a non-empty record set is the fixed
header row followed by exactly one data row per record in record order:
identifier verbatim, empty name, literal `0` voice, the exact product
`allocationGB * 1024` (for `2.5` GB exactly `2560`, never rounded), and
literal `0` SMS. -/
theorem export_rows_layout (es : List PhoneEntry) (h : es ≠ []) :
    ∃ sheet : ExportedSheetV2, exportToExcelV2 es = some sheet ∧
      sheet.rows.length = es.length + 1 ∧
      sheet.rows.head? = some headerRow ∧
      (∀ i, (hi : i < es.length) →
        sheet.rows[i + 1]? = some
          [CellVal.s es[i].number, CellVal.s "", CellVal.n (JsNum.fin 0),
           CellVal.n (es[i].allocationGB.mulNat 1024), CellVal.n (JsNum.fin 0)]) ∧
      (∀ e : PhoneEntry, e.allocationGB = JsNum.fin (5 / 2) →
        e.allocationGB.mulNat 1024 = JsNum.fin 2560) := by
  refine ⟨buildV2 es, ?_, ?_, ?_, ?_, ?_⟩
  · simp [exportToExcelV2, List.isEmpty_iff, h]
  · simp [buildV2, worksheetRows]
  · simp [buildV2, worksheetRows]
  · intro i hi
    show (worksheetRows es)[i + 1]? = _
    unfold worksheetRows
    rw [List.getElem?_cons_succ, List.getElem?_map, List.getElem?_eq_getElem hi]
    rfl
  · intro e he
    rw [he]
    show JsNum.fin ((5 / 2 : ℚ) * (1024 : ℕ)) = JsNum.fin 2560
    norm_num

/-- C4 witness: the layout at the one-record set, whose record with
allocation `2.5` would export `2560` MB. -/
theorem export_rows_layout_witness :
    esOne ≠ [] ∧
    (∃ sheet : ExportedSheetV2, exportToExcelV2 esOne = some sheet ∧
      sheet.rows.length = esOne.length + 1 ∧
      sheet.rows.head? = some headerRow ∧
      (∀ i, (hi : i < esOne.length) →
        sheet.rows[i + 1]? = some
          [CellVal.s esOne[i].number, CellVal.s "", CellVal.n (JsNum.fin 0),
           CellVal.n (esOne[i].allocationGB.mulNat 1024), CellVal.n (JsNum.fin 0)]) ∧
      (∀ e : PhoneEntry, e.allocationGB = JsNum.fin (5 / 2) →
        e.allocationGB.mulNat 1024 = JsNum.fin 2560)) :=
  ⟨by decide, export_rows_layout esOne (by decide)⟩

/-- C5: the totals block of a non-empty export of `N` records sits at row
`(N + 1) + 5`, sums `D2:D(N + 1)` as a live formula, divides that cell by
`1024` in the adjacent cell as a live formula, and both cells are bold; at
`N = 3` the `SUM` lands in row `9` and references `D2:D4`. -/
theorem export_totals_placement (es : List PhoneEntry) (h : es ≠ []) :
    ∃ sheet : ExportedSheetV2, exportToExcelV2 es = some sheet ∧
      sheet.totals.rowIndex = (es.length + 1) + 5 ∧
      sheet.totals.sumFormula = "SUM(D2:D" ++ toString (es.length + 1) ++ ")" ∧
      sheet.totals.gbFormula = "F" ++ toString ((es.length + 1) + 5) ++ "/1024" ∧
      sheet.totals.sumBold = true ∧ sheet.totals.gbBold = true ∧
      (es.length = 3 →
        sheet.totals.rowIndex = 9 ∧ sheet.totals.sumFormula = "SUM(D2:D4)") := by
  refine ⟨buildV2 es, ?_, rfl, rfl, rfl, rfl, rfl, ?_⟩
  · simp [exportToExcelV2, List.isEmpty_iff, h]
  · intro h3
    constructor
    · show (es.length + 1) + 5 = 9
      omega
    · show ("SUM(D2:D" ++ toString (es.length + 1) ++ ")" : String) = "SUM(D2:D4)"
      rw [h3]
      decide

/-- C5 witness: the three-record export puts `SUM(D2:D4)` at row `9`. -/
theorem export_totals_placement_witness :
    esThree ≠ [] ∧
    (∃ sheet : ExportedSheetV2, exportToExcelV2 esThree = some sheet ∧
      sheet.totals.rowIndex = (esThree.length + 1) + 5 ∧
      sheet.totals.sumFormula = "SUM(D2:D" ++ toString (esThree.length + 1) ++ ")" ∧
      sheet.totals.gbFormula = "F" ++ toString ((esThree.length + 1) + 5) ++ "/1024" ∧
      sheet.totals.sumBold = true ∧ sheet.totals.gbBold = true ∧
      (esThree.length = 3 →
        sheet.totals.rowIndex = 9 ∧ sheet.totals.sumFormula = "SUM(D2:D4)")) :=
  ⟨by decide, export_totals_placement esThree (by decide)⟩

/-- C6 counterexample: in the second export variant an invalid duplicate
record receives the duplicate yellow fill (the two `if`s are independent,
and the invalid styling is a red font, not a red fill), so the claimed
red-fill-plus-precedence behaviour fails. -/
theorem styleClaim_counterexample : ¬ styleClaimAt eInvDup := by
  intro h
  have h1 := (h.1 rfl).2.2.1
  exact absurd h1 (by decide)

/-- C6 (amended): in the first export variant the claim holds as stated —
invalid rows get the red fill with bold font on every cell, valid
duplicates the yellow fill with bold font, and invalid takes precedence;
in the second variant the two checks are independent: an invalid record
gets a bold red font (no fill) on its identifier cell, a duplicate gets
the yellow fill there (without bold) whether or not it is valid, so an
invalid duplicate carries both. -/
theorem export_styling (e : PhoneEntry) :
    (e.isValid = false →
      rowFaceV1 e =
        { fillColor := some "FFFF0000", fontColor := some "FF000000", bold := true } ∧
      (cell1FaceV2 e).fontColor = some "FFFF0000" ∧
      (cell1FaceV2 e).bold = true ∧
      (cell1FaceV2 e).fillColor =
        (if e.isDuplicate = true then some "FFFFFF00" else none)) ∧
    (e.isValid = true → e.isDuplicate = true →
      rowFaceV1 e =
        { fillColor := some "FFFFFF00", fontColor := some "FF000000", bold := true } ∧
      cell1FaceV2 e =
        { fillColor := some "FFFFFF00", fontColor := none, bold := false }) ∧
    (e.isValid = false → (rowFaceV1 e).fillColor = some "FFFF0000") ∧
    (e.isDuplicate = true → (cell1FaceV2 e).fillColor = some "FFFFFF00") := by
  rcases e with ⟨n, a, vl, dp⟩
  cases vl <;> cases dp <;>
    simp [rowFaceV1, cell1FaceV2, plainFace]

/-- C6 witness: the invalid duplicate record gets the red-fill bold row in
variant one, and in variant two a bold red font with the yellow fill. -/
theorem export_styling_witness :
    eInvDup.isValid = false ∧
    (rowFaceV1 eInvDup =
        { fillColor := some "FFFF0000", fontColor := some "FF000000", bold := true } ∧
      (cell1FaceV2 eInvDup).fontColor = some "FFFF0000" ∧
      (cell1FaceV2 eInvDup).bold = true ∧
      (cell1FaceV2 eInvDup).fillColor =
        (if eInvDup.isDuplicate = true then some "FFFFFF00" else none)) :=
  ⟨rfl, (export_styling eInvDup).1 rfl⟩

/-- C7: an export of an empty record set is rejected up front with the
state unchanged; a serialization failure is caught with the input text and
record set retained; only a successful export clears both. -/
theorem exportToExcel_state_policy (st : AppState) (ok : Bool) :
    (st.entries = [] → exportToExcelRun st ok = (st, ExportOutcome.rejectedEmpty)) ∧
    (st.entries ≠ [] → ok = false →
      exportToExcelRun st ok = (st, ExportOutcome.exportError)) ∧
    (st.entries ≠ [] → ok = true →
      exportToExcelRun st ok =
        ({ inputText := "", entries := [] },
          ExportOutcome.exported (buildV2 st.entries))) := by
  refine ⟨?_, ?_, ?_⟩
  · intro he
    simp [exportToExcelRun, he]
  · intro he hok
    subst hok
    simp [exportToExcelRun, List.isEmpty_iff, he]
  · intro he hok
    subst hok
    simp [exportToExcelRun, List.isEmpty_iff, he]

/-- C7 witness: the empty state is rejected unchanged, and a failing
serialization on a non-empty state leaves the state unchanged. -/
theorem exportToExcel_state_policy_witness :
    (stEmpty.entries = [] ∧
      exportToExcelRun stEmpty true = (stEmpty, ExportOutcome.rejectedEmpty)) ∧
    (stOne.entries ≠ [] ∧
      exportToExcelRun stOne false = (stOne, ExportOutcome.exportError)) :=
  ⟨⟨rfl, (exportToExcel_state_policy stEmpty true).1 rfl⟩,
   ⟨by decide, (exportToExcel_state_policy stOne false).2.1 (by decide) rfl⟩⟩

/-- C8 counterexample: the first export variant sets five fixed column
widths, so on a one-record set its first column has width `15` while the
claimed formula gives `max(10, 18) + 2 = 20` (the header text
`Beneficiary Msisdn` is 18 characters). -/
theorem widthClaim_counterexample : ¬ widthClaimAt esOne := by
  intro h
  have h0 := (h 0 (by decide)).1
  exact absurd h0 (by decide)

/-- Folding `max` from a seed equals `max` of the seed and the fold from
zero. -/
theorem foldl_max_from (l : List ℕ) : ∀ a : ℕ, l.foldl max a = max a (l.foldl max 0) := by
  induction l with
  | nil =>
    intro a
    simp
  | cons x xs ih =>
    intro a
    rw [List.foldl_cons, List.foldl_cons, ih (max a x), ih (max 0 x),
      Nat.zero_max, Nat.max_assoc]

/-- The auto-sizing fold computes exactly the specified
`max(10, longest cell text) + 2`. -/
theorem colWidthAuto_eq_spec (rows : List (List CellVal)) (i : ℕ) :
    colWidthAuto rows i = specColWidth rows i := by
  unfold colWidthAuto specColWidth
  congr 1
  rw [show (rows.foldl
      (fun m row => max m (cellTextLen (row.getD i (CellVal.s "")))) 10) =
      (rows.map (fun row => cellTextLen (row.getD i (CellVal.s "")))).foldl max 10
    from (List.foldl_map _ _ _ _).symm]
  exact foldl_max_from _ 10

/-- C8 (amended): the second export variant (and the identical loop of the
unnamed source file) auto-sizes every column to
`max(10, longest cell text) + 2`; the first variant instead sets the five
fixed widths `15, 20, 15, 15, 12`. -/
theorem export_column_widths (es : List PhoneEntry) (i : ℕ) (hi : i < 5) :
    (buildV2 es).colWidths.getD i 0 = specColWidth ((buildV2 es).rows) i ∧
    (buildV1 es).colWidths = [15, 20, 15, 15, 12] := by
  constructor
  · show (autoWidths (worksheetRows es)).getD i 0 = _
    unfold autoWidths
    rw [List.getD_eq_getElem?_getD, List.getElem?_map, List.getElem?_range hi]
    simp [colWidthAuto_eq_spec]
    rfl
  · rfl

/-- C8 witness: the first column of the one-record export. -/
theorem export_column_widths_witness :
    (0 : ℕ) < 5 ∧
    ((buildV2 esOne).colWidths.getD 0 0 = specColWidth ((buildV2 esOne).rows) 0 ∧
      (buildV1 esOne).colWidths = [15, 20, 15, 15, 12]) :=
  ⟨by decide, export_column_widths esOne 0 (by decide)⟩

/-- `find?` at a head that satisfies the predicate (explicit-argument
spelling, convenient for rewriting). -/
theorem find?_cons_pos {α : Type} (p : α → Bool) (a : α) (l : List α)
    (h : p a = true) : (a :: l).find? p = some a :=
  List.find?_cons_of_pos l h

/-- `find?` past a head that fails the predicate (explicit-argument
spelling). -/
theorem find?_cons_neg {α : Type} (p : α → Bool) (a : α) (l : List α)
    (h : p a = false) : (a :: l).find? p = l.find? p :=
  List.find?_cons_of_neg l (by simp [h])

/-- Updating an existing key rewrites that entry in place, so the first
matching entry becomes the new pair. -/
theorem find?_update_self (m : List (String × ℕ)) (k : String) (v : ℕ)
    (hk : (m.any (fun p => p.1 == k)) = true) :
    (m.map (fun p => if p.1 == k then (p.1, v) else p)).find?
      (fun p => p.1 == k) = some (k, v) := by
  induction m with
  | nil => simp at hk
  | cons p rest ih =>
    rw [List.map_cons]
    by_cases hpk : (p.1 == k) = true
    · rw [if_pos hpk, find?_cons_pos (fun q => q.1 == k) (p.1, v) _ hpk]
      rw [eq_of_beq hpk]
    · rw [if_neg hpk,
        find?_cons_neg (fun q => q.1 == k) p _ (by simpa using hpk)]
      apply ih
      rw [List.any_cons] at hk
      simpa [hpk] using hk

/-- Updating one key leaves lookups of any other key unchanged. -/
theorem find?_update_other (m : List (String × ℕ)) (k k2 : String) (v : ℕ)
    (hne : k2 ≠ k) :
    (m.map (fun p => if p.1 == k then (p.1, v) else p)).find?
      (fun p => p.1 == k2) = m.find? (fun p => p.1 == k2) := by
  induction m with
  | nil => rfl
  | cons p rest ih =>
    rw [List.map_cons]
    by_cases hpk : (p.1 == k) = true
    · have hpeq : p.1 = k := eq_of_beq hpk
      have hp2 : (p.1 == k2) = false := by
        rw [beq_eq_false_iff_ne, hpeq]
        exact Ne.symm hne
      rw [if_pos hpk, find?_cons_neg (fun q => q.1 == k2) (p.1, v) _ hp2,
        find?_cons_neg (fun q => q.1 == k2) p _ hp2, ih]
    · rw [if_neg hpk]
      by_cases hp2 : (p.1 == k2) = true
      · rw [find?_cons_pos (fun q => q.1 == k2) p _ hp2,
          find?_cons_pos (fun q => q.1 == k2) p _ hp2]
      · rw [find?_cons_neg (fun q => q.1 == k2) p _ (by simpa using hp2),
          find?_cons_neg (fun q => q.1 == k2) p _ (by simpa using hp2), ih]

/-- `find?` skips a prefix in which nothing matches. -/
theorem find?_append_of_none {α : Type} (p : α → Bool) (l1 l2 : List α)
    (h : l1.find? p = none) : (l1 ++ l2).find? p = l2.find? p := by
  induction l1 with
  | nil => rfl
  | cons a l ih =>
    by_cases hpa : p a = true
    · rw [List.find?_cons_of_pos _ hpa] at h
      exact absurd h (by simp)
    · rw [List.find?_cons_of_neg _ (by simp [hpa])] at h
      rw [List.cons_append, List.find?_cons_of_neg _ (by simp [hpa])]
      exact ih h

/-- A key absent from the map reads as `0`. -/
theorem objGet_eq_zero_of_not_any (m : List (String × ℕ)) (k : String)
    (hk : ¬ (m.any (fun p => p.1 == k)) = true) : objGet m k = 0 := by
  unfold objGet
  have hnone : m.find? (fun p => p.1 == k) = none := by
    rw [List.find?_eq_none]
    intro p hp hpk
    exact hk (List.any_eq_true.mpr ⟨p, hp, hpk⟩)
  rw [hnone]

/-- Reading back the key just written returns the written value. -/
theorem objGet_objSet_self (m : List (String × ℕ)) (k : String) (v : ℕ) :
    objGet (objSet m k v) k = v := by
  unfold objSet
  by_cases hk : (m.any (fun p => p.1 == k)) = true
  · rw [if_pos hk]
    unfold objGet
    rw [find?_update_self m k v hk]
  · rw [if_neg hk]
    unfold objGet
    have hnone : m.find? (fun p => p.1 == k) = none := by
      rw [List.find?_eq_none]
      intro p hp hpk
      exact hk (List.any_eq_true.mpr ⟨p, hp, hpk⟩)
    rw [find?_append_of_none _ m _ hnone]
    simp [List.find?]

/-- `find?` keeps the first match of a prefix across an append. -/
theorem find?_append_of_some {α : Type} (p : α → Bool) (l1 l2 : List α)
    (q : α) (h : l1.find? p = some q) : (l1 ++ l2).find? p = some q := by
  induction l1 with
  | nil => exact absurd h (by simp)
  | cons a l ih =>
    by_cases hpa : p a = true
    · rw [List.find?_cons_of_pos _ hpa] at h
      rw [List.cons_append, List.find?_cons_of_pos _ hpa]
      exact h
    · rw [List.find?_cons_of_neg _ (by simp [hpa])] at h
      rw [List.cons_append, List.find?_cons_of_neg _ (by simp [hpa])]
      exact ih h

/-- Writing one key leaves every other key's value unchanged. -/
theorem objGet_objSet_other (m : List (String × ℕ)) (k k2 : String) (v : ℕ)
    (hne : k2 ≠ k) : objGet (objSet m k v) k2 = objGet m k2 := by
  unfold objSet
  by_cases hk : (m.any (fun p => p.1 == k)) = true
  · rw [if_pos hk]
    unfold objGet
    rw [find?_update_other m k k2 v hne]
  · rw [if_neg hk]
    unfold objGet
    cases hf : m.find? (fun p => p.1 == k2) with
    | some q =>
      rw [find?_append_of_some _ m _ _ hf]
    | none =>
      have hb : (k == k2) = false := by
        rw [beq_eq_false_iff_ne]
        exact Ne.symm hne
      rw [find?_append_of_none _ m _ hf]
      simp [List.find?, hf, hb]

/-- First-seen insertion keeps a key list duplicate-free. -/
theorem seenInsert_nodup {ks : List String} (h : ks.Nodup) (k : String) :
    (seenInsert ks k).Nodup := by
  unfold seenInsert
  by_cases hk : k ∈ ks
  · rw [if_pos hk]
    exact h
  · rw [if_neg hk]
    rw [List.nodup_append]
    refine ⟨h, List.nodup_singleton k, ?_⟩
    intro a ha hb
    simp at hb
    subst hb
    exact hk ha

/-- Writing a key inserts it into the key sequence in first-seen order. -/
theorem objSet_keys (m : List (String × ℕ)) (k : String) (v : ℕ) :
    (objSet m k v).map Prod.fst = seenInsert (m.map Prod.fst) k := by
  unfold objSet seenInsert
  by_cases hk : (m.any (fun p => p.1 == k)) = true
  · rw [if_pos hk]
    have hmem : k ∈ m.map Prod.fst := by
      rw [List.any_eq_true] at hk
      obtain ⟨p, hp, he⟩ := hk
      exact List.mem_map.mpr ⟨p, hp, eq_of_beq he⟩
    rw [if_pos hmem, List.map_map]
    apply List.map_congr_left
    intro p hp
    by_cases hpk : (p.1 == k) = true
    · simp [Function.comp, hpk]
    · simp [Function.comp, hpk]
  · rw [if_neg hk]
    have hmem : k ∉ m.map Prod.fst := by
      intro hc
      apply hk
      rw [List.any_eq_true]
      obtain ⟨p, hp, he⟩ := List.mem_map.mp hc
      exact ⟨p, hp, by simp [he]⟩
    rw [if_neg hmem, List.map_append]
    rfl

/-- Rewriting an existing key's entry to a new value changes the value
column's sum by swapping the old value for the new one (duplicate-free
keys mean exactly one entry is rewritten). -/
theorem sum_map_update (m : List (String × ℕ)) (k : String) (w : ℕ)
    (hnd : (m.map Prod.fst).Nodup) (hk : (m.any (fun p => p.1 == k)) = true) :
    ((m.map (fun p => if p.1 == k then (p.1, w) else p)).map Prod.snd).sum +
      objGet m k = (m.map Prod.snd).sum + w := by
  induction m with
  | nil => simp at hk
  | cons p rest ih =>
    by_cases hpk : (p.1 == k) = true
    · have hpeq : p.1 = k := eq_of_beq hpk
      have hobj : objGet (p :: rest) k = p.2 := by
        unfold objGet
        rw [find?_cons_pos (fun q => q.1 == k) p _ hpk]
      have hrest : ∀ q ∈ rest, (q.1 == k) = false := by
        intro q hq
        rw [beq_eq_false_iff_ne]
        intro hqk
        rw [List.map_cons, List.nodup_cons] at hnd
        exact hnd.1 (List.mem_map.mpr ⟨q, hq, by rw [hqk, hpeq]⟩)
      have hid : rest.map (fun q => if q.1 == k then (q.1, w) else q) = rest := by
        have hcg : ∀ q ∈ rest,
            (fun q => if q.1 == k then (q.1, w) else q) q = id q := by
          intro q hq
          simp [hrest q hq]
        rw [List.map_congr_left hcg, List.map_id]
      simp only [List.map_cons, List.sum_cons]
      rw [hobj]
      simp only [hpk, if_true]
      rw [hid]
      omega
    · have hk2 : (rest.any (fun p => p.1 == k)) = true := by
        rw [List.any_cons] at hk
        simpa [hpk] using hk
      have hnd2 : (rest.map Prod.fst).Nodup := by
        rw [List.map_cons, List.nodup_cons] at hnd
        exact hnd.2
      have hobj : objGet (p :: rest) k = objGet rest k := by
        unfold objGet
        rw [find?_cons_neg (fun q => q.1 == k) p _ (by simpa using hpk)]
      simp only [List.map_cons, List.sum_cons]
      rw [hobj, if_neg hpk]
      have := ih hnd2 hk2
      omega

/-- One tally step adds exactly one to the value column's sum. -/
theorem objSet_sum (m : List (String × ℕ)) (k : String)
    (hnd : (m.map Prod.fst).Nodup) :
    ((objSet m k (objGet m k + 1)).map Prod.snd).sum =
      (m.map Prod.snd).sum + 1 := by
  unfold objSet
  by_cases hk : (m.any (fun p => p.1 == k)) = true
  · rw [if_pos hk]
    have := sum_map_update m k (objGet m k + 1) hnd hk
    omega
  · rw [if_neg hk]
    rw [List.map_append, List.sum_append]
    rw [objGet_eq_zero_of_not_any m k hk]
    simp

/-- With duplicate-free keys, every entry's value is what `objGet` reads
for its key. -/
theorem objGet_of_mem {m : List (String × ℕ)} {p : String × ℕ}
    (hnd : (m.map Prod.fst).Nodup) (hp : p ∈ m) : objGet m p.1 = p.2 := by
  induction m with
  | nil => simp at hp
  | cons q rest ih =>
    rw [List.map_cons, List.nodup_cons] at hnd
    rcases List.mem_cons.mp hp with rfl | hp2
    · unfold objGet
      rw [find?_cons_pos (fun r => r.1 == p.1) p _ (by simp)]
    · have hq : (q.1 == p.1) = false := by
        rw [beq_eq_false_iff_ne]
        intro he
        exact hnd.1 (List.mem_map.mpr ⟨p, hp2, he.symm⟩)
      unfold objGet
      rw [find?_cons_neg (fun r => r.1 == p.1) q _ hq]
      exact ih hnd.2 hp2

/-- Invariant of the tally fold: keys stay duplicate-free and in
first-seen order, each key's value counts its label's occurrences, and
every processed line adds exactly one to the value column's sum. -/
theorem parseData_fold (lines : List (List Char)) :
    ∀ m : List (String × ℕ), (m.map Prod.fst).Nodup →
      ((lines.foldl updSummary m).map Prod.fst).Nodup ∧
      (lines.foldl updSummary m).map Prod.fst =
        (lines.map bucketLabel).foldl seenInsert (m.map Prod.fst) ∧
      (∀ k, objGet (lines.foldl updSummary m) k =
        objGet m k + (lines.map bucketLabel).count k) ∧
      ((lines.foldl updSummary m).map Prod.snd).sum =
        (m.map Prod.snd).sum + lines.length := by
  induction lines with
  | nil =>
    intro m hnd
    simp [hnd]
  | cons l ls ih =>
    intro m hnd
    rw [List.foldl_cons, List.map_cons, List.foldl_cons]
    have hkeys : (updSummary m l).map Prod.fst =
        seenInsert (m.map Prod.fst) (bucketLabel l) :=
      objSet_keys m (bucketLabel l) _
    have hnd2 : ((updSummary m l).map Prod.fst).Nodup := by
      rw [hkeys]
      exact seenInsert_nodup hnd _
    obtain ⟨ia, ib, ic, id2⟩ := ih (updSummary m l) hnd2
    refine ⟨ia, ?_, ?_, ?_⟩
    · rw [ib, hkeys]
    · intro k
      rw [ic k, List.count_cons]
      by_cases hk : bucketLabel l = k
      · have hstep : objGet (updSummary m l) k = objGet m k + 1 := by
          unfold updSummary
          rw [hk, objGet_objSet_self]
        rw [hstep]
        simp [hk]
        omega
      · have hstep : objGet (updSummary m l) k = objGet m k := by
          unfold updSummary
          exact objGet_objSet_other m (bucketLabel l) k _ (Ne.symm hk)
        rw [hstep]
        simp [hk]
    · rw [id2]
      unfold updSummary
      rw [objSet_sum m (bucketLabel l) hnd]
      simp only [List.length_cons]
      omega

/-- C9: the categorizer tallies exactly one count per trimmed non-empty
line into the bucket named by that line's label (second token, digits
kept, rendered `"<digits> GB"`, or `"Unknown"`): the summary's keys are
the labels in first-seen order, each key's count is the number of lines
with that label, and the counts sum to the number of lines. -/
theorem parseData_tally (raw : String) :
    (parseData raw).map Prod.fst =
      firstSeenKeys ((categorizerLines raw).map bucketLabel) ∧
    (∀ p ∈ parseData raw,
      p.2 = ((categorizerLines raw).map bucketLabel).count p.1) ∧
    ((parseData raw).map Prod.snd).sum = (categorizerLines raw).length := by
  obtain ⟨ha, hb, hc, hd⟩ :=
    parseData_fold (categorizerLines raw) [] (by simp)
  refine ⟨?_, ?_, ?_⟩
  · rw [parseData, hb]
    rfl
  · intro p hp
    have h1 : objGet (parseData raw) p.1 = p.2 := objGet_of_mem ha hp
    have h2 := hc p.1
    rw [show (categorizerLines raw).foldl updSummary [] = parseData raw from rfl]
      at h2
    rw [h1, show objGet ([] : List (String × ℕ)) p.1 = 0 from rfl] at h2
    simpa using h2
  · rw [parseData, hd]
    simp

/-- C9 witness: on the four-line example the buckets are `20 GB`, `50 GB`
and `Unknown` in first-seen order, the `20 GB` bucket counts two lines,
and the counts sum to four. -/
theorem parseData_tally_witness :
    (parseData exCat).map Prod.fst =
      firstSeenKeys ((categorizerLines exCat).map bucketLabel) ∧
    ((("20 GB", 2) : String × ℕ) ∈ parseData exCat ∧
      (("20 GB", 2) : String × ℕ).2 =
        ((categorizerLines exCat).map bucketLabel).count
          (("20 GB", 2) : String × ℕ).1) ∧
    ((parseData exCat).map Prod.snd).sum = (categorizerLines exCat).length :=
  ⟨(parseData_tally exCat).1,
   ⟨by decide, (parseData_tally exCat).2.1 _ (by decide)⟩,
   (parseData_tally exCat).2.2⟩

/-- C3 witness: the characterization evaluated at the specification's
valid example identifier. -/
theorem validateNumber_characterization_witness :
    (validateNumber "0554739033" = true ↔
      ("0554739033" : String).data.length = 10 ∧
        (∀ c ∈ ("0554739033" : String).data, c.isDigit = true) ∧
        ("0554739033" : String).data.head? = some '0') ∧
    validateNumber "0554739033" = true :=
  ⟨validateNumber_characterization.1 "0554739033",
    validateNumber_characterization.2.1⟩
